import Mathlib

/-!
Verification of the PoseLib `gp4ps` minimal solver (`src/PoseLib/gp4ps.cc`).

The solver computes camera poses `(R, t, alpha)` such that
`alpha * p[i] + lambda_i * x[i] = R * X[i] + t` for four correspondences.
The C++ code is shallowly embedded here over `ℚ`:

* the 8×13 coefficient matrix `A` built row-pair by row-pair from the four
  correspondences (`buildA`, mirroring the two `A.row(...)` statements);
* the elimination stage: `B = A.block<4,4>(0,0).inverse()` (`elimB`, with an
  explicit executable cofactor inverse `inv4`) and the Schur complement
  `AR = A.block<3,9>(4,4) - A.block<3,4>(4,0) * B * A.block<4,9>(0,4)`
  (`elimAR`);
* the external `re3q3` collaborators (`rotation_to_3q3`, `re3q3`,
  `cayley_param`), which are not part of this repository's sources, are
  modelled as an oracle structure `RE3Q3` specified at their interface;
* the per-root back-substitution and the append-only output protocol
  (`poseOf`, `gp4psCore`, `gp4ps`); out-of-range access into the input
  `std::vector`s is modelled by `Option`.
-/

/-- A 3-vector over `ℚ`, the embedding of `Eigen::Vector3d`. -/
abbrev Vec3 := Fin 3 → ℚ

/-- The embedding of `poselib::CameraPose`: rotation, translation and the
scale factor `alpha`. -/
structure CameraPose where
  R : Matrix (Fin 3) (Fin 3) ℚ
  t : Vec3
  alpha : ℚ

/-- Determinant of a 3×3 matrix given by its nine entries (row major). -/
def det3 (a b c d e f g h i : ℚ) : ℚ :=
  a * (e * i - f * h) - b * (d * i - f * g) + c * (d * h - e * g)

/-- Determinant of a 4×4 rational matrix, by Laplace expansion along the
first row.  Used to embed `Eigen`'s `.inverse()` executably. -/
def det4 (M : Matrix (Fin 4) (Fin 4) ℚ) : ℚ :=
  M 0 0 * det3 (M 1 1) (M 1 2) (M 1 3) (M 2 1) (M 2 2) (M 2 3) (M 3 1) (M 3 2) (M 3 3)
  - M 0 1 * det3 (M 1 0) (M 1 2) (M 1 3) (M 2 0) (M 2 2) (M 2 3) (M 3 0) (M 3 2) (M 3 3)
  + M 0 2 * det3 (M 1 0) (M 1 1) (M 1 3) (M 2 0) (M 2 1) (M 2 3) (M 3 0) (M 3 1) (M 3 3)
  - M 0 3 * det3 (M 1 0) (M 1 1) (M 1 2) (M 2 0) (M 2 1) (M 2 2) (M 3 0) (M 3 1) (M 3 2)

/-- Adjugate (transposed cofactor matrix) of a 4×4 rational matrix, written
out entrywise. -/
def adj4 (M : Matrix (Fin 4) (Fin 4) ℚ) : Matrix (Fin 4) (Fin 4) ℚ :=
  !![det3 (M 1 1) (M 1 2) (M 1 3) (M 2 1) (M 2 2) (M 2 3) (M 3 1) (M 3 2) (M 3 3),
     -det3 (M 0 1) (M 0 2) (M 0 3) (M 2 1) (M 2 2) (M 2 3) (M 3 1) (M 3 2) (M 3 3),
     det3 (M 0 1) (M 0 2) (M 0 3) (M 1 1) (M 1 2) (M 1 3) (M 3 1) (M 3 2) (M 3 3),
     -det3 (M 0 1) (M 0 2) (M 0 3) (M 1 1) (M 1 2) (M 1 3) (M 2 1) (M 2 2) (M 2 3);
     -det3 (M 1 0) (M 1 2) (M 1 3) (M 2 0) (M 2 2) (M 2 3) (M 3 0) (M 3 2) (M 3 3),
     det3 (M 0 0) (M 0 2) (M 0 3) (M 2 0) (M 2 2) (M 2 3) (M 3 0) (M 3 2) (M 3 3),
     -det3 (M 0 0) (M 0 2) (M 0 3) (M 1 0) (M 1 2) (M 1 3) (M 3 0) (M 3 2) (M 3 3),
     det3 (M 0 0) (M 0 2) (M 0 3) (M 1 0) (M 1 2) (M 1 3) (M 2 0) (M 2 2) (M 2 3);
     det3 (M 1 0) (M 1 1) (M 1 3) (M 2 0) (M 2 1) (M 2 3) (M 3 0) (M 3 1) (M 3 3),
     -det3 (M 0 0) (M 0 1) (M 0 3) (M 2 0) (M 2 1) (M 2 3) (M 3 0) (M 3 1) (M 3 3),
     det3 (M 0 0) (M 0 1) (M 0 3) (M 1 0) (M 1 1) (M 1 3) (M 3 0) (M 3 1) (M 3 3),
     -det3 (M 0 0) (M 0 1) (M 0 3) (M 1 0) (M 1 1) (M 1 3) (M 2 0) (M 2 1) (M 2 3);
     -det3 (M 1 0) (M 1 1) (M 1 2) (M 2 0) (M 2 1) (M 2 2) (M 3 0) (M 3 1) (M 3 2),
     det3 (M 0 0) (M 0 1) (M 0 2) (M 2 0) (M 2 1) (M 2 2) (M 3 0) (M 3 1) (M 3 2),
     -det3 (M 0 0) (M 0 1) (M 0 2) (M 1 0) (M 1 1) (M 1 2) (M 3 0) (M 3 1) (M 3 2),
     det3 (M 0 0) (M 0 1) (M 0 2) (M 1 0) (M 1 1) (M 1 2) (M 2 0) (M 2 1) (M 2 2)]

/-- Executable inverse of a 4×4 rational matrix: `det⁻¹ • adjugate`.  For a
singular matrix it returns the zero matrix (the singular case is the
degenerate-input situation of the C++ code, where `Eigen` produces garbage;
every theorem that needs the inverse assumes `det4 _ ≠ 0`). -/
def inv4 (M : Matrix (Fin 4) (Fin 4) ℚ) : Matrix (Fin 4) (Fin 4) ℚ :=
  (det4 M)⁻¹ • adj4 M

/-- Row `2*i` of the coefficient matrix, from
`A.row(2 * i) << x[i](2), 0.0, -x[i](0), -p[i](0) * x[i](2) + p[i](2) * x[i](0), X[i](0) * x[i](2), 0.0, -X[i](0) * x[i](0), X[i](1) * x[i](2), 0.0, -X[i](1) * x[i](0), X[i](2) * x[i](2), 0.0, -X[i](2) * x[i](0);`. -/
def rowEven (pi xi Xi : Vec3) : Fin 13 → ℚ :=
  ![xi 2, 0, -xi 0, -pi 0 * xi 2 + pi 2 * xi 0,
    Xi 0 * xi 2, 0, -Xi 0 * xi 0,
    Xi 1 * xi 2, 0, -Xi 1 * xi 0,
    Xi 2 * xi 2, 0, -Xi 2 * xi 0]

/-- Row `2*i+1` of the coefficient matrix, from
`A.row(2 * i + 1) << 0.0, x[i](2), -x[i](1), -p[i](1) * x[i](2) + p[i](2) * x[i](1), 0.0, X[i](0) * x[i](2), -X[i](0) * x[i](1), 0.0, X[i](1) * x[i](2), -X[i](1) * x[i](1), 0.0, X[i](2) * x[i](2), -X[i](2) * x[i](1);`. -/
def rowOdd (pi xi Xi : Vec3) : Fin 13 → ℚ :=
  ![0, xi 2, -xi 1, -pi 1 * xi 2 + pi 2 * xi 1,
    0, Xi 0 * xi 2, -Xi 0 * xi 1,
    0, Xi 1 * xi 2, -Xi 1 * xi 1,
    0, Xi 2 * xi 2, -Xi 2 * xi 1]

/-- The 8×13 coefficient matrix `A` of `gp4ps`, built from the four
correspondences exactly as the `for (int i = 0; i < 4; ++i)` loop does. -/
def buildA (p x X : Fin 4 → Vec3) : Matrix (Fin 8) (Fin 13) ℚ :=
  Matrix.of ![rowEven (p 0) (x 0) (X 0), rowOdd (p 0) (x 0) (X 0),
              rowEven (p 1) (x 1) (X 1), rowOdd (p 1) (x 1) (X 1),
              rowEven (p 2) (x 2) (X 2), rowOdd (p 2) (x 2) (X 2),
              rowEven (p 3) (x 3) (X 3), rowOdd (p 3) (x 3) (X 3)]

/-- Row indices `0..3` of `A`, the rows used by the eliminated block. -/
def rowsTop : Fin 4 → Fin 8 := fun i => ⟨i.val, by omega⟩

/-- Row indices `4..6` of `A`, the rows used by the Schur complement
(`A.block<3,9>(4,4)` and `A.block<3,4>(4,0)` have three rows; row 7 is
never read). -/
def rowsBot : Fin 3 → Fin 8 := fun i => ⟨i.val + 4, by omega⟩

/-- Column indices `0..3` of `A` (coefficients of `t` and `alpha`). -/
def colsLeft : Fin 4 → Fin 13 := fun j => ⟨j.val, by omega⟩

/-- Column indices `4..12` of `A` (coefficients of the nine rotation
entries). -/
def colsRight : Fin 9 → Fin 13 := fun j => ⟨j.val + 4, by omega⟩

/-- `A.block<4, 4>(0, 0)`. -/
def blockTL (A : Matrix (Fin 8) (Fin 13) ℚ) : Matrix (Fin 4) (Fin 4) ℚ :=
  A.submatrix rowsTop colsLeft

/-- `A.block<4, 9>(0, 4)`. -/
def blockTR (A : Matrix (Fin 8) (Fin 13) ℚ) : Matrix (Fin 4) (Fin 9) ℚ :=
  A.submatrix rowsTop colsRight

/-- `A.block<3, 4>(4, 0)`. -/
def blockBL (A : Matrix (Fin 8) (Fin 13) ℚ) : Matrix (Fin 3) (Fin 4) ℚ :=
  A.submatrix rowsBot colsLeft

/-- `A.block<3, 9>(4, 4)`. -/
def blockBR (A : Matrix (Fin 8) (Fin 13) ℚ) : Matrix (Fin 3) (Fin 9) ℚ :=
  A.submatrix rowsBot colsRight

/-- `Eigen::Matrix4d B = A.block<4, 4>(0, 0).inverse();`. -/
def elimB (A : Matrix (Fin 8) (Fin 13) ℚ) : Matrix (Fin 4) (Fin 4) ℚ :=
  inv4 (blockTL A)

/-- `AR = A.block<3, 9>(4, 4) - A.block<3, 4>(4, 0) * B * A.block<4, 9>(0, 4);`. -/
def elimAR (A : Matrix (Fin 8) (Fin 13) ℚ) : Matrix (Fin 3) (Fin 9) ℚ :=
  blockBR A - blockBL A * elimB A * blockTR A

/-- Column-major vectorization of a 3×3 matrix, the embedding of
`Eigen::Map<Eigen::Matrix<double, 9, 1>>(pose.R.data())` (Eigen stores
matrices column major). -/
def vecR (R : Matrix (Fin 3) (Fin 3) ℚ) : Fin 9 → ℚ :=
  ![R 0 0, R 1 0, R 2 0, R 0 1, R 1 1, R 2 1, R 0 2, R 1 2, R 2 2]

/-- Modelled from the spec: the external `re3q3` collaborators
(`re3q3::rotation_to_3q3`, `re3q3::re3q3`, `re3q3::cayley_param` from
`<re3q3/re3q3.h>`) are not part of this repository's sources; the spec
describes them only at their interface: a pure conversion of the reduced
3×9 system to the coefficients of 3 quadrics in 3 unknowns, a pure root
finder returning the real roots — at most 8, since the C++ solution buffer
is a 3×8 matrix and the spec states the count is in `[0, 8]` — and a pure
3-parameter-to-rotation map. -/
structure RE3Q3 where
  rotation_to_3q3 : Matrix (Fin 3) (Fin 9) ℚ → Matrix (Fin 3) (Fin 10) ℚ
  re3q3 : Matrix (Fin 3) (Fin 10) ℚ → List (Fin 3 → ℚ)
  re3q3_le_eight : ∀ c, (re3q3 c).length ≤ 8
  cayley_param : (Fin 3 → ℚ) → Matrix (Fin 3) (Fin 3) ℚ

/-- Per-root reconstruction: `cayley_param(solutions.col(i), &pose.R)`,
`ts = -B * (A.block<4, 9>(0, 4) * vec(pose.R))`, `pose.t = ts.block<3,1>(0,0)`,
`pose.alpha = ts(3)`. -/
def poseOf (E : RE3Q3) (A : Matrix (Fin 8) (Fin 13) ℚ) (s : Fin 3 → ℚ) : CameraPose :=
  let R := E.cayley_param s
  let ts : Fin 4 → ℚ := -(elimB A).mulVec ((blockTR A).mulVec (vecR R))
  { R := R, t := ![ts 0, ts 1, ts 2], alpha := ts 3 }

/-- The poses appended by one invocation of `gp4ps`: one pose per root
returned by the external solver on the reduced system. -/
def gp4psCore (E : RE3Q3) (p x X : Fin 4 → Vec3) : List CameraPose :=
  (E.re3q3 (E.rotation_to_3q3 (elimAR (buildA p x X)))).map (poseOf E (buildA p x X))

/-- Reads elements `0..3` of an input `std::vector`.  The C++ code indexes
`p[i]`, `x[i]`, `X[i]` for `i < 4` with no bounds check; an out-of-range
access (a vector with fewer than 4 elements) is undefined behaviour and is
modelled as `none`.  Elements past index 3 are never read. -/
def read4 {α : Type} (l : List α) : Option (Fin 4 → α) :=
  match l[0]?, l[1]?, l[2]?, l[3]? with
  | some a, some b, some c, some d => some ![a, b, c, d]
  | _, _, _, _ => none

/-- The embedding of `int gp4ps(p, x, X, output)`: returns the root count
`n_sols` together with the output vector after the `output->push_back(pose)`
loop, or `none` if reading the four correspondences is out of range. -/
def gp4ps (E : RE3Q3) (p x X : List Vec3) (output : List CameraPose) :
    Option (ℕ × List CameraPose) := do
  let pv ← read4 p
  let xv ← read4 x
  let Xv ← read4 X
  let sols := gp4psCore E pv xv Xv
  return (sols.length, output ++ sols)

set_option maxHeartbeats 1000000 in
/-- Laplace-expansion identity: `M * adj4 M = det4 M • 1`. -/
theorem mul_adj4 (M : Matrix (Fin 4) (Fin 4) ℚ) : M * adj4 M = det4 M • 1 := by
  funext i j
  fin_cases i <;> fin_cases j <;>
    · simp [Matrix.mul_apply, Fin.sum_univ_four, adj4, det4, det3, Matrix.one_apply]
      ring

set_option maxHeartbeats 1000000 in
/-- Laplace-expansion identity: `adj4 M * M = det4 M • 1`. -/
theorem adj4_mul (M : Matrix (Fin 4) (Fin 4) ℚ) : adj4 M * M = det4 M • 1 := by
  funext i j
  fin_cases i <;> fin_cases j <;>
    · simp [Matrix.mul_apply, Fin.sum_univ_four, adj4, det4, det3, Matrix.one_apply]
      ring

/-- For a nonsingular 4×4 matrix, `inv4` is a left inverse. -/
theorem inv4_mul_self (M : Matrix (Fin 4) (Fin 4) ℚ) (h : det4 M ≠ 0) :
    inv4 M * M = 1 := by
  rw [inv4, Matrix.smul_mul, adj4_mul, smul_smul, inv_mul_cancel₀ h, one_smul]

/-- For a nonsingular 4×4 matrix, `inv4` is a right inverse. -/
theorem mul_inv4_self (M : Matrix (Fin 4) (Fin 4) ℚ) (h : det4 M ≠ 0) :
    M * inv4 M = 1 := by
  rw [inv4, Matrix.mul_smul, mul_adj4, smul_smul, inv_mul_cancel₀ h, one_smul]

/-- Entrywise form of `A.block<4,4>(0,0)`: rows `0..3` of `A` come from
correspondences 0 and 1. -/
theorem blockTL_eval (p x X : Fin 4 → Vec3) :
    blockTL (buildA p x X) =
      !![x 0 2, 0, -x 0 0, -p 0 0 * x 0 2 + p 0 2 * x 0 0;
         0, x 0 2, -x 0 1, -p 0 1 * x 0 2 + p 0 2 * x 0 1;
         x 1 2, 0, -x 1 0, -p 1 0 * x 1 2 + p 1 2 * x 1 0;
         0, x 1 2, -x 1 1, -p 1 1 * x 1 2 + p 1 2 * x 1 1] := by
  funext i j
  fin_cases i <;> fin_cases j <;> rfl

/-- Entrywise form of `A.block<4,9>(0,4)`. -/
theorem blockTR_eval (p x X : Fin 4 → Vec3) :
    blockTR (buildA p x X) =
      !![X 0 0 * x 0 2, 0, -X 0 0 * x 0 0, X 0 1 * x 0 2, 0, -X 0 1 * x 0 0, X 0 2 * x 0 2, 0, -X 0 2 * x 0 0;
         0, X 0 0 * x 0 2, -X 0 0 * x 0 1, 0, X 0 1 * x 0 2, -X 0 1 * x 0 1, 0, X 0 2 * x 0 2, -X 0 2 * x 0 1;
         X 1 0 * x 1 2, 0, -X 1 0 * x 1 0, X 1 1 * x 1 2, 0, -X 1 1 * x 1 0, X 1 2 * x 1 2, 0, -X 1 2 * x 1 0;
         0, X 1 0 * x 1 2, -X 1 0 * x 1 1, 0, X 1 1 * x 1 2, -X 1 1 * x 1 1, 0, X 1 2 * x 1 2, -X 1 2 * x 1 1] := by
  funext i j
  fin_cases i <;> fin_cases j <;> rfl

/-- Entrywise form of `A.block<3,4>(4,0)`: rows `4..6` of `A`, that is, both
rows of correspondence 2 and only the even row of correspondence 3. -/
theorem blockBL_eval (p x X : Fin 4 → Vec3) :
    blockBL (buildA p x X) =
      !![x 2 2, 0, -x 2 0, -p 2 0 * x 2 2 + p 2 2 * x 2 0;
         0, x 2 2, -x 2 1, -p 2 1 * x 2 2 + p 2 2 * x 2 1;
         x 3 2, 0, -x 3 0, -p 3 0 * x 3 2 + p 3 2 * x 3 0] := by
  funext i j
  fin_cases i <;> fin_cases j <;> rfl

/-- Entrywise form of `A.block<3,9>(4,4)`. -/
theorem blockBR_eval (p x X : Fin 4 → Vec3) :
    blockBR (buildA p x X) =
      !![X 2 0 * x 2 2, 0, -X 2 0 * x 2 0, X 2 1 * x 2 2, 0, -X 2 1 * x 2 0, X 2 2 * x 2 2, 0, -X 2 2 * x 2 0;
         0, X 2 0 * x 2 2, -X 2 0 * x 2 1, 0, X 2 1 * x 2 2, -X 2 1 * x 2 1, 0, X 2 2 * x 2 2, -X 2 2 * x 2 1;
         X 3 0 * x 3 2, 0, -X 3 0 * x 3 0, X 3 1 * x 3 2, 0, -X 3 1 * x 3 0, X 3 2 * x 3 2, 0, -X 3 2 * x 3 0] := by
  funext i j
  fin_cases i <;> fin_cases j <;> rfl

/-- Modelled from the spec: a concrete Cayley-style parameterization (the
glossary's rational map with degree-`≤2` numerators over the common
denominator `1 + s₁² + s₂² + s₃²`), used to instantiate the oracle's
`cayley_param` on concrete inputs.  `cayleyParam 0` is the identity
rotation. -/
def cayleyParam (s : Fin 3 → ℚ) : Matrix (Fin 3) (Fin 3) ℚ :=
  (1 + s 0 ^ 2 + s 1 ^ 2 + s 2 ^ 2)⁻¹ •
  !![1 + s 0 ^ 2 - s 1 ^ 2 - s 2 ^ 2, 2 * (s 0 * s 1 - s 2), 2 * (s 0 * s 2 + s 1);
     2 * (s 0 * s 1 + s 2), 1 - s 0 ^ 2 + s 1 ^ 2 - s 2 ^ 2, 2 * (s 1 * s 2 - s 0);
     2 * (s 0 * s 2 - s 1), 2 * (s 1 * s 2 + s 0), 1 - s 0 ^ 2 - s 1 ^ 2 + s 2 ^ 2]

/-- Residual component of a pose against one correspondence along the row
vector `(x_z, 0, -x_x)` (the direction orthogonal to `x` used by the even
rows): `(x_z, 0, -x_x) · (alpha*p - (R*X + t))`.  Both this and `residOdd`
are independent of the depth `lambda`, because the row vectors are
orthogonal to `x`. -/
def residEven (pose : CameraPose) (pi xi Xi : Vec3) : ℚ :=
  xi 2 * (pose.alpha * pi 0 - ((pose.R).mulVec Xi 0 + pose.t 0))
  - xi 0 * (pose.alpha * pi 2 - ((pose.R).mulVec Xi 2 + pose.t 2))

/-- Residual component along `(0, x_z, -x_y)` (the direction used by the odd
rows): `(0, x_z, -x_y) · (alpha*p - (R*X + t))`. -/
def residOdd (pose : CameraPose) (pi xi Xi : Vec3) : ℚ :=
  xi 2 * (pose.alpha * pi 1 - ((pose.R).mulVec Xi 1 + pose.t 1))
  - xi 1 * (pose.alpha * pi 2 - ((pose.R).mulVec Xi 2 + pose.t 2))

/-- The eliminated unknown vector `[t; alpha]` of a pose. -/
def tvec (pose : CameraPose) : Fin 4 → ℚ :=
  ![pose.t 0, pose.t 1, pose.t 2, pose.alpha]

/-- Modelled from the spec: per-root reconstruction as the spec phrases it,
`[t; alpha] = -B * A[0:4, 4:13] * vec(R)`, `t = result[0:3]`,
`alpha = result[3]` (to be compared with the source's `poseOf`). -/
def poseSpec (E : RE3Q3) (A : Matrix (Fin 8) (Fin 13) ℚ) (s : Fin 3 → ℚ) : CameraPose :=
  let R := E.cayley_param s
  let ts : Fin 4 → ℚ := (-(elimB A * blockTR A)).mulVec (vecR R)
  { R := R, t := ![ts 0, ts 1, ts 2], alpha := ts 3 }

/-- The spec's Kronecker-style expansion `X ⊗ v`: for each of the 3 entries
of `X`, that entry times the triple `v`. -/
def kron (Xi : Vec3) (v : Fin 3 → ℚ) : Fin 9 → ℚ :=
  ![Xi 0 * v 0, Xi 0 * v 1, Xi 0 * v 2,
    Xi 1 * v 0, Xi 1 * v 1, Xi 1 * v 2,
    Xi 2 * v 0, Xi 2 * v 1, Xi 2 * v 2]

set_option maxHeartbeats 1000000 in
/-- The four rows of the eliminated block, evaluated at the unknowns
`[t; alpha; vec(R)]` of a pose, are the negated `residEven`/`residOdd`
residuals of correspondences 0 and 1. -/
theorem resid_top (p x X : Fin 4 → Vec3) (pose : CameraPose) :
    (blockTL (buildA p x X)).mulVec (tvec pose)
      + (blockTR (buildA p x X)).mulVec (vecR pose.R) =
      ![-residEven pose (p 0) (x 0) (X 0), -residOdd pose (p 0) (x 0) (X 0),
        -residEven pose (p 1) (x 1) (X 1), -residOdd pose (p 1) (x 1) (X 1)] := by
  funext k
  rw [blockTL_eval, blockTR_eval]
  fin_cases k <;>
    simp [Matrix.mulVec, Matrix.dotProduct, Fin.sum_univ_succ, tvec, vecR,
      residEven, residOdd, Matrix.vecHead, Matrix.vecTail, Function.comp] <;>
    ring

set_option maxHeartbeats 1000000 in
/-- Rows `4..6` of `A`, evaluated at the unknowns of a pose, are the negated
residuals of correspondence 2 (both components) and of correspondence 3
(even component only — row 7, the odd component of correspondence 3, is not
among them). -/
theorem resid_bot (p x X : Fin 4 → Vec3) (pose : CameraPose) :
    (blockBL (buildA p x X)).mulVec (tvec pose)
      + (blockBR (buildA p x X)).mulVec (vecR pose.R) =
      ![-residEven pose (p 2) (x 2) (X 2), -residOdd pose (p 2) (x 2) (X 2),
        -residEven pose (p 3) (x 3) (X 3)] := by
  funext k
  rw [blockBL_eval, blockBR_eval]
  fin_cases k <;>
    simp [Matrix.mulVec, Matrix.dotProduct, Fin.sum_univ_succ, tvec, vecR,
      residEven, residOdd, Matrix.vecHead, Matrix.vecTail, Function.comp] <;>
    ring

/-- Concrete offsets `p` for a nondegenerate instance: correspondences
0, 1, 2 are consistent with the pose `(R, t, alpha) = (I, 0, 1)`;
correspondence 3 satisfies only its even-row constraint at that pose. -/
def pc : Fin 4 → Vec3 := ![![0, 0, 0], ![0, -1, 0], ![1, 0, 0], ![0, 0, 0]]

/-- Concrete ray directions `x` for the instance of `pc`. -/
def xc : Fin 4 → Vec3 := ![![0, 0, 1], ![1, 0, 1], ![0, 1, 1], ![0, 0, 1]]

/-- Concrete world points `X` for the instance of `pc`. -/
def Xc : Fin 4 → Vec3 := ![![0, 0, 5], ![1, -1, 1], ![1, 2, 2], ![0, 1, 7]]

/-- The instance of `pc` with correspondences 2 and 3 swapped. -/
def pcS : Fin 4 → Vec3 := ![![0, 0, 0], ![0, -1, 0], ![0, 0, 0], ![1, 0, 0]]

/-- The instance of `xc` with correspondences 2 and 3 swapped. -/
def xcS : Fin 4 → Vec3 := ![![0, 0, 1], ![1, 0, 1], ![0, 0, 1], ![0, 1, 1]]

/-- The instance of `Xc` with correspondences 2 and 3 swapped. -/
def XcS : Fin 4 → Vec3 := ![![0, 0, 5], ![1, -1, 1], ![0, 1, 7], ![1, 2, 2]]

/-- Input list form of `pc`. -/
def pcl : List Vec3 := [![0, 0, 0], ![0, -1, 0], ![1, 0, 0], ![0, 0, 0]]

/-- Input list form of `xc`. -/
def xcl : List Vec3 := [![0, 0, 1], ![1, 0, 1], ![0, 1, 1], ![0, 0, 1]]

/-- Input list form of `Xc`. -/
def Xcl : List Vec3 := [![0, 0, 5], ![1, -1, 1], ![1, 2, 2], ![0, 1, 7]]

/-- Input list form of `pcS`. -/
def pclS : List Vec3 := [![0, 0, 0], ![0, -1, 0], ![0, 0, 0], ![1, 0, 0]]

/-- Input list form of `xcS`. -/
def xclS : List Vec3 := [![0, 0, 1], ![1, 0, 1], ![0, 0, 1], ![0, 1, 1]]

/-- Input list form of `XcS`. -/
def XclS : List Vec3 := [![0, 0, 5], ![1, -1, 1], ![0, 1, 7], ![1, 2, 2]]

/-- A five-element input: `pcl` with one extra (ignored) element. -/
def pcl5 : List Vec3 := [![0, 0, 0], ![0, -1, 0], ![1, 0, 0], ![0, 0, 0], ![9, 9, 9]]

/-- A five-element input: `xcl` with one extra (ignored) element. -/
def xcl5 : List Vec3 := [![0, 0, 1], ![1, 0, 1], ![0, 1, 1], ![0, 0, 1], ![8, 8, 8]]

/-- A five-element input: `Xcl` with one extra (ignored) element. -/
def Xcl5 : List Vec3 := [![0, 0, 5], ![1, -1, 1], ![1, 2, 2], ![0, 1, 7], ![7, 7, 7]]

/-- A concrete oracle: the solver always reports the single root `(0,0,0)`
(so exactly one pose is reconstructed), and the parameterization is the
concrete Cayley map. -/
def Ezero : RE3Q3 where
  rotation_to_3q3 := fun _ => 0
  re3q3 := fun _ => [![0, 0, 0]]
  re3q3_le_eight := fun _ => by simp
  cayley_param := cayleyParam

/-- Forgets the tenth column of a coefficient matrix (left inverse of
`pad`). -/
def unpad (c : Matrix (Fin 3) (Fin 10) ℚ) : Matrix (Fin 3) (Fin 9) ℚ :=
  Matrix.of fun i j => c i ⟨j.val, by omega⟩

/-- Embeds the reduced 3×9 system into a 3×10 coefficient matrix (an
injective stand-in for the conversion to quadric coefficients). -/
def pad (AR : Matrix (Fin 3) (Fin 9) ℚ) : Matrix (Fin 3) (Fin 10) ℚ :=
  Matrix.of fun i j => if h : j.val < 9 then AR i ⟨j.val, h⟩ else 0

/-- A root-checking oracle: it reports the root `(0,0,0)` exactly when the
rotation reconstructed from it, `cayleyParam (0,0,0) = I`, exactly
annihilates the reduced system (so it never reports an inexact root). -/
def Efilter : RE3Q3 where
  rotation_to_3q3 := pad
  re3q3 := fun c =>
    if (unpad c).mulVec (vecR (cayleyParam ![0, 0, 0])) = 0 then [![0, 0, 0]] else []
  re3q3_le_eight := fun c => by dsimp only; split <;> simp
  cayley_param := cayleyParam

/-- Reading the concrete list input recovers the concrete correspondences. -/
theorem read4_pcl : read4 pcl = some pc := rfl

/-- Reading the concrete list input recovers the concrete ray directions. -/
theorem read4_xcl : read4 xcl = some xc := rfl

/-- Reading the concrete list input recovers the concrete world points. -/
theorem read4_Xcl : read4 Xcl = some Xc := rfl

/-- The leading 4×4 block of the concrete instance has determinant `-1`. -/
theorem detc_eval : det4 (blockTL (buildA pc xc Xc)) = -1 := by
  rw [blockTL_eval]
  norm_num [det4, det3, pc, xc, Xc]

/-- The concrete instance is nondegenerate. -/
theorem detc_ne : det4 (blockTL (buildA pc xc Xc)) ≠ 0 := by
  rw [detc_eval]; norm_num

set_option maxHeartbeats 4000000 in
/-- On the concrete instance, the identity rotation exactly annihilates the
reduced system: `(0,0,0)` is an exact root. -/
theorem rootc : (elimAR (buildA pc xc Xc)).mulVec (vecR (cayleyParam ![0, 0, 0])) = 0 := by
  funext i
  rw [elimAR, elimB, blockBR_eval, blockBL_eval, blockTL_eval, blockTR_eval]
  fin_cases i <;>
    simp [Matrix.mulVec, Matrix.dotProduct, Fin.sum_univ_succ, Matrix.mul_apply, inv4, adj4,
      det4, det3, Matrix.sub_apply, Matrix.smul_apply, vecR, cayleyParam, pc, xc, Xc,
      Matrix.vecHead, Matrix.vecTail, Function.comp] <;>
    norm_num

set_option maxHeartbeats 1000000 in
/-- The swapped instance is nondegenerate as well (it has the same leading
block, since only correspondences 2 and 3 were exchanged). -/
theorem detcS_ne : det4 (blockTL (buildA pcS xcS XcS)) ≠ 0 := by
  rw [blockTL_eval]
  norm_num [det4, det3, pcS, xcS, XcS]

set_option maxHeartbeats 4000000 in
/-- On the swapped instance the identity rotation does not annihilate the
reduced system: its second component is `1`. -/
theorem rootcS_entry :
    (elimAR (buildA pcS xcS XcS)).mulVec (vecR (cayleyParam ![0, 0, 0])) 1 = 1 := by
  rw [elimAR, elimB, blockBR_eval, blockBL_eval, blockTL_eval, blockTR_eval]
  simp [Matrix.mulVec, Matrix.dotProduct, Fin.sum_univ_succ, Matrix.mul_apply, inv4, adj4,
    det4, det3, Matrix.sub_apply, Matrix.smul_apply, vecR, cayleyParam, pcS, xcS, XcS,
    Matrix.vecHead, Matrix.vecTail, Function.comp]

/-- The swapped instance has no exact root at `(0,0,0)`. -/
theorem rootcS_ne :
    (elimAR (buildA pcS xcS XcS)).mulVec (vecR (cayleyParam ![0, 0, 0])) ≠ 0 := by
  intro h
  have h1 := congrFun h 1
  rw [rootcS_entry] at h1
  norm_num at h1

/-- Unfolding `gp4ps` when all three reads succeed. -/
theorem gp4ps_eq_some (E : RE3Q3) (p x X : List Vec3) (out : List CameraPose)
    (pv xv Xv : Fin 4 → Vec3)
    (hp : read4 p = some pv) (hx : read4 x = some xv) (hX : read4 X = some Xv) :
    gp4ps E p x X out =
      some ((gp4psCore E pv xv Xv).length, out ++ gp4psCore E pv xv Xv) := by
  simp [gp4ps, hp, hx, hX]

/-- Inversion: a successful `gp4ps` call determines the three reads and the
result shape. -/
theorem gp4ps_some_inv (E : RE3Q3) (p x X : List Vec3) (out : List CameraPose)
    (r : ℕ × List CameraPose) (h : gp4ps E p x X out = some r) :
    ∃ pv xv Xv, read4 p = some pv ∧ read4 x = some xv ∧ read4 X = some Xv ∧
      r = ((gp4psCore E pv xv Xv).length, out ++ gp4psCore E pv xv Xv) := by
  cases hp : read4 p with
  | none => rw [gp4ps, hp] at h; simp at h
  | some pv =>
    cases hx : read4 x with
    | none => rw [gp4ps, hp, hx] at h; simp at h
    | some xv =>
      cases hX : read4 X with
      | none => rw [gp4ps, hp, hx, hX] at h; simp at h
      | some Xv =>
        refine ⟨pv, xv, Xv, rfl, rfl, rfl, ?_⟩
        rw [gp4ps, hp, hx, hX] at h
        have h2 : some ((gp4psCore E pv xv Xv).length, out ++ gp4psCore E pv xv Xv) = some r := h
        exact (Option.some.inj h2).symm

/-- A list with fewer than four elements cannot be read. -/
theorem read4_eq_none {α : Type} (l : List α) (h : l.length < 4) : read4 l = none := by
  rw [read4, List.getElem?_eq_none (by omega : l.length ≤ 3)]
  cases l[0]? <;> cases l[1]? <;> cases l[2]? <;> rfl

/-- Reading ignores everything after the first four elements. -/
theorem read4_take {α : Type} (l : List α) : read4 (l.take 4) = read4 l := by
  rw [read4, read4,
    List.getElem?_take_of_lt (by omega : (0:ℕ) < 4),
    List.getElem?_take_of_lt (by omega : (1:ℕ) < 4),
    List.getElem?_take_of_lt (by omega : (2:ℕ) < 4),
    List.getElem?_take_of_lt (by omega : (3:ℕ) < 4)]

/-- A list with at least four elements reads successfully. -/
theorem read4_isSome {α : Type} (l : List α) (h : 4 ≤ l.length) :
    read4 l = some ![l[0], l[1], l[2], l[3]] := by
  rw [read4,
    List.getElem?_eq_getElem (by omega : 0 < l.length),
    List.getElem?_eq_getElem (by omega : 1 < l.length),
    List.getElem?_eq_getElem (by omega : 2 < l.length),
    List.getElem?_eq_getElem (by omega : 3 < l.length)]

/-- `pad` is injectively undone by `unpad`. -/
theorem unpad_pad (M : Matrix (Fin 3) (Fin 9) ℚ) : unpad (pad M) = M := by
  funext i j
  simp [unpad, pad, j.isLt]

set_option maxHeartbeats 4000000 in
/-- The odd residual of the reconstructed pose against correspondence 3 of
the concrete instance is `-1`: row 7 of `A` is violated by the returned
pose. -/
theorem residOddc_eval :
    residOdd (poseOf Ezero (buildA pc xc Xc) ![0, 0, 0]) (pc 3) (xc 3) (Xc 3) = -1 := by
  rw [poseOf, elimB, blockTL_eval, blockTR_eval]
  simp only [residOdd, Ezero]
  simp [Matrix.mulVec, Matrix.dotProduct, Fin.sum_univ_succ, Matrix.mul_apply, inv4, adj4,
    det4, det3, Matrix.smul_apply, vecR, cayleyParam, pc, xc, Xc,
    Matrix.vecHead, Matrix.vecTail, Function.comp]

/-- The concrete run of `gp4ps` with the always-one-root oracle: one pose. -/
theorem gp4ps_Ezero_eval :
    gp4ps Ezero pcl xcl Xcl [] = some (1, [poseOf Ezero (buildA pc xc Xc) ![0, 0, 0]]) := rfl

/-- On the concrete instance, the root-checking oracle reports the root. -/
theorem Efilter_core_pos :
    gp4psCore Efilter pc xc Xc = [poseOf Efilter (buildA pc xc Xc) ![0, 0, 0]] := by
  show ((if (unpad (pad (elimAR (buildA pc xc Xc)))).mulVec (vecR (cayleyParam ![0, 0, 0])) = 0
      then [![0, 0, 0]] else []).map (poseOf Efilter (buildA pc xc Xc))) = _
  rw [unpad_pad, if_pos rootc]
  rfl

/-- On the swapped instance, the root-checking oracle reports nothing. -/
theorem Efilter_core_neg : gp4psCore Efilter pcS xcS XcS = [] := by
  show ((if (unpad (pad (elimAR (buildA pcS xcS XcS)))).mulVec (vecR (cayleyParam ![0, 0, 0])) = 0
      then [![0, 0, 0]] else []).map (poseOf Efilter (buildA pcS xcS XcS))) = _
  rw [unpad_pad, if_neg rootcS_ne]
  rfl

/-- The concrete run of `gp4ps` with the root-checking oracle on the
original ordering. -/
theorem gp4ps_Efilter_eval :
    gp4ps Efilter pcl xcl Xcl [] = some (1, [poseOf Efilter (buildA pc xc Xc) ![0, 0, 0]]) := by
  rw [gp4ps_eq_some Efilter pcl xcl Xcl [] pc xc Xc rfl rfl rfl, Efilter_core_pos]
  rfl

/-- The concrete run of `gp4ps` with the root-checking oracle on the
swapped ordering: no poses. -/
theorem gp4ps_Efilter_evalS :
    gp4ps Efilter pclS xclS XclS [] = some (0, []) := by
  rw [gp4ps_eq_some Efilter pclS xclS XclS [] pcS xcS XcS rfl rfl rfl, Efilter_core_neg]
  rfl

/-- The source's per-root reconstruction agrees with the spec's phrasing
`[t; alpha] = -B * A[0:4, 4:13] * vec(R)` (matrix product against the
composed map). -/
theorem poseOf_eq_poseSpec (E : RE3Q3) (A : Matrix (Fin 8) (Fin 13) ℚ) :
    poseOf E A = poseSpec E A := by
  funext s
  have hts : -(elimB A).mulVec ((blockTR A).mulVec (vecR (E.cayley_param s)))
      = (-(elimB A * blockTR A)).mulVec (vecR (E.cayley_param s)) := by
    rw [Matrix.neg_mulVec, Matrix.mulVec_mulVec]
  simp only [poseOf, poseSpec]
  rw [hts]

/-- C1: the elimination stage inverts the leading 4×4 block
(`B = A[0:4,0:4]⁻¹`, a two-sided inverse whenever that block is
nonsingular) and forms the 3×9 Schur complement
`AR = A[4:8→rows 4..6, 4:13] - A[4:8→rows 4..6, 0:4] * B * A[0:4, 4:13]`,
which is exactly what is handed to the rotation-recovery stage. -/
theorem gp4ps_elimination_schur (E : RE3Q3) (p x X : Fin 4 → Vec3)
    (hdet : det4 (blockTL (buildA p x X)) ≠ 0) :
    blockTL (buildA p x X) * elimB (buildA p x X) = 1 ∧
    elimB (buildA p x X) * blockTL (buildA p x X) = 1 ∧
    elimB (buildA p x X) = (blockTL (buildA p x X))⁻¹ ∧
    elimAR (buildA p x X) =
      blockBR (buildA p x X)
        - blockBL (buildA p x X) * elimB (buildA p x X) * blockTR (buildA p x X) ∧
    gp4psCore E p x X =
      (E.re3q3 (E.rotation_to_3q3 (elimAR (buildA p x X)))).map (poseOf E (buildA p x X)) :=
  ⟨mul_inv4_self _ hdet, inv4_mul_self _ hdet,
    (Matrix.inv_eq_left_inv (inv4_mul_self _ hdet)).symm, rfl, rfl⟩

/-- Witness for C1 at the concrete nondegenerate instance. -/
theorem gp4ps_elimination_schur_witness :
    det4 (blockTL (buildA pc xc Xc)) ≠ 0 ∧
    (blockTL (buildA pc xc Xc) * elimB (buildA pc xc Xc) = 1 ∧
     elimB (buildA pc xc Xc) * blockTL (buildA pc xc Xc) = 1 ∧
     elimB (buildA pc xc Xc) = (blockTL (buildA pc xc Xc))⁻¹ ∧
     elimAR (buildA pc xc Xc) =
       blockBR (buildA pc xc Xc)
         - blockBL (buildA pc xc Xc) * elimB (buildA pc xc Xc) * blockTR (buildA pc xc Xc) ∧
     gp4psCore Ezero pc xc Xc =
       (Ezero.re3q3 (Ezero.rotation_to_3q3 (elimAR (buildA pc xc Xc)))).map
         (poseOf Ezero (buildA pc xc Xc))) :=
  ⟨detc_ne, gp4ps_elimination_schur Ezero pc xc Xc detc_ne⟩

/-- C2: a successful call returns exactly the number of poses it appended,
that number is the root count reported by the external polynomial solver on
the reduced system, and it lies in `[0, 8]`. -/
theorem gp4ps_count_spec (E : RE3Q3) (p x X : List Vec3) (out : List CameraPose)
    (r : ℕ × List CameraPose) (h : gp4ps E p x X out = some r) :
    out.length + r.1 = r.2.length ∧
    (∃ pv xv Xv, read4 p = some pv ∧ read4 x = some xv ∧ read4 X = some Xv ∧
      r.1 = (E.re3q3 (E.rotation_to_3q3 (elimAR (buildA pv xv Xv)))).length) ∧
    r.1 ≤ 8 := by
  obtain ⟨pv, xv, Xv, hp, hx, hX, hr⟩ := gp4ps_some_inv E p x X out r h
  subst hr
  refine ⟨by simp, ⟨pv, xv, Xv, hp, hx, hX, by simp [gp4psCore]⟩, ?_⟩
  simpa [gp4psCore] using E.re3q3_le_eight (E.rotation_to_3q3 (elimAR (buildA pv xv Xv)))

/-- Witness for C2 at the concrete instance (one root, one pose). -/
theorem gp4ps_count_spec_witness :
    gp4ps Ezero pcl xcl Xcl [] = some (1, [poseOf Ezero (buildA pc xc Xc) ![0, 0, 0]]) ∧
    (([] : List CameraPose).length + (1, [poseOf Ezero (buildA pc xc Xc) ![0, 0, 0]]).1 =
        (1, [poseOf Ezero (buildA pc xc Xc) ![0, 0, 0]]).2.length ∧
      (∃ pv xv Xv, read4 pcl = some pv ∧ read4 xcl = some xv ∧ read4 Xcl = some Xv ∧
        (1, [poseOf Ezero (buildA pc xc Xc) ![0, 0, 0]]).1 =
          (Ezero.re3q3 (Ezero.rotation_to_3q3 (elimAR (buildA pv xv Xv)))).length) ∧
      (1, [poseOf Ezero (buildA pc xc Xc) ![0, 0, 0]]).1 ≤ 8) :=
  ⟨gp4ps_Ezero_eval, gp4ps_count_spec Ezero pcl xcl Xcl [] _ gp4ps_Ezero_eval⟩

/-- An even source row, rewritten as the spec describes it: the four
`(t, alpha)` coefficients followed by the Kronecker-style block. -/
theorem rowEven_eq_append (pi xi Xi : Vec3) :
    rowEven pi xi Xi =
      Fin.append ![xi 2, 0, -xi 0, -pi 0 * xi 2 + pi 2 * xi 0]
        (kron Xi ![xi 2, 0, -xi 0]) := by
  funext j
  fin_cases j <;> first | rfl | exact (mul_zero _).symm | exact neg_mul_comm _ _

/-- An odd source row, rewritten as the spec describes it. -/
theorem rowOdd_eq_append (pi xi Xi : Vec3) :
    rowOdd pi xi Xi =
      Fin.append ![0, xi 2, -xi 1, -pi 1 * xi 2 + pi 2 * xi 1]
        (kron Xi ![0, xi 2, -xi 1]) := by
  funext j
  fin_cases j <;> first | rfl | exact (mul_zero _).symm | exact neg_mul_comm _ _

/-- C3: row `2i` of `A` holds the coefficients
`(x_z, 0, -x_x, -p_x x_z + p_z x_x)` for `(t, alpha)` followed by the
Kronecker-style expansion `X[i] ⊗ (x_z, 0, -x_x)` for the nine rotation
entries, and row `2i+1` the symmetric construction from `(0, x_z, -x_y)`. -/
theorem buildA_rows_spec (p x X : Fin 4 → Vec3) (i : Fin 4) :
    (buildA p x X) ⟨2 * i.val, by omega⟩ =
      Fin.append ![x i 2, 0, -x i 0, -p i 0 * x i 2 + p i 2 * x i 0]
        (kron (X i) ![x i 2, 0, -x i 0]) ∧
    (buildA p x X) ⟨2 * i.val + 1, by omega⟩ =
      Fin.append ![0, x i 2, -x i 1, -p i 1 * x i 2 + p i 2 * x i 1]
        (kron (X i) ![0, x i 2, -x i 1]) := by
  fin_cases i <;>
    exact ⟨rowEven_eq_append _ _ _, rowOdd_eq_append _ _ _⟩

/-- C4: for every root returned by the solver, the eliminated unknowns are
recovered as `[t; alpha] = -B * A[0:4, 4:13] * vec(R)`, the first three
components become `t`, the fourth becomes `alpha`, and the assembled pose
is appended to the output. -/
theorem gp4ps_back_substitution (E : RE3Q3) (p x X : List Vec3) (out : List CameraPose)
    (r : ℕ × List CameraPose) (pv xv Xv : Fin 4 → Vec3)
    (hp : read4 p = some pv) (hx : read4 x = some xv) (hX : read4 X = some Xv)
    (h : gp4ps E p x X out = some r) :
    r.2 = out ++ (E.re3q3 (E.rotation_to_3q3 (elimAR (buildA pv xv Xv)))).map
      (poseSpec E (buildA pv xv Xv)) := by
  obtain ⟨pv', xv', Xv', hp', hx', hX', hr⟩ := gp4ps_some_inv E p x X out r h
  rw [hp] at hp'
  rw [hx] at hx'
  rw [hX] at hX'
  cases Option.some.inj hp'
  cases Option.some.inj hx'
  cases Option.some.inj hX'
  subst hr
  rw [gp4psCore, poseOf_eq_poseSpec]

/-- Witness for C4 at the concrete instance. -/
theorem gp4ps_back_substitution_witness :
    read4 pcl = some pc ∧ read4 xcl = some xc ∧ read4 Xcl = some Xc ∧
    gp4ps Ezero pcl xcl Xcl [] = some (1, [poseOf Ezero (buildA pc xc Xc) ![0, 0, 0]]) ∧
    (1, [poseOf Ezero (buildA pc xc Xc) ![0, 0, 0]]).2 =
      [] ++ (Ezero.re3q3 (Ezero.rotation_to_3q3 (elimAR (buildA pc xc Xc)))).map
        (poseSpec Ezero (buildA pc xc Xc)) :=
  ⟨read4_pcl, read4_xcl, read4_Xcl, gp4ps_Ezero_eval,
    gp4ps_back_substitution Ezero pcl xcl Xcl [] _ pc xc Xc
      read4_pcl read4_xcl read4_Xcl gp4ps_Ezero_eval⟩

/-- C6: `gp4ps` only appends: the prior contents of the output sequence are
preserved, in place, as a prefix; the new poses follow them; and when the
solver reports no roots the call returns `0` and the output is unchanged. -/
theorem gp4ps_append_only (E : RE3Q3) (p x X : List Vec3) (out : List CameraPose)
    (r : ℕ × List CameraPose) (h : gp4ps E p x X out = some r) :
    r.2.take out.length = out ∧
    r.2 = out ++ r.2.drop out.length ∧
    out.length + r.1 = r.2.length ∧
    (r.1 = 0 → r.2 = out) := by
  obtain ⟨pv, xv, Xv, hp, hx, hX, hr⟩ := gp4ps_some_inv E p x X out r h
  subst hr
  refine ⟨List.take_left _ _, by rw [List.drop_left], by simp, fun h0 => ?_⟩
  have hz : gp4psCore E pv xv Xv = [] := List.length_eq_zero.mp h0
  simp [hz]

/-- Witness for C6 at the concrete instance. -/
theorem gp4ps_append_only_witness :
    gp4ps Ezero pcl xcl Xcl [] = some (1, [poseOf Ezero (buildA pc xc Xc) ![0, 0, 0]]) ∧
    ((1, [poseOf Ezero (buildA pc xc Xc) ![0, 0, 0]]).2.take ([] : List CameraPose).length
        = [] ∧
      (1, [poseOf Ezero (buildA pc xc Xc) ![0, 0, 0]]).2 =
        [] ++ (1, [poseOf Ezero (buildA pc xc Xc) ![0, 0, 0]]).2.drop
          ([] : List CameraPose).length ∧
      ([] : List CameraPose).length + (1, [poseOf Ezero (buildA pc xc Xc) ![0, 0, 0]]).1 =
        (1, [poseOf Ezero (buildA pc xc Xc) ![0, 0, 0]]).2.length ∧
      ((1, [poseOf Ezero (buildA pc xc Xc) ![0, 0, 0]]).1 = 0 →
        (1, [poseOf Ezero (buildA pc xc Xc) ![0, 0, 0]]).2 = [])) :=
  ⟨gp4ps_Ezero_eval, gp4ps_append_only Ezero pcl xcl Xcl [] _ gp4ps_Ezero_eval⟩

/-- Amended C5: for a root whose reconstructed rotation exactly annihilates
the reduced system (exact collaborators), the reconstructed pose zeroes the
residual components corresponding to the seven rows `0..6` of `A`: both
components for correspondences 0, 1, 2, but only the even component for
correspondence 3 — its odd component is row 7, which the 3×9 reduction
never uses. -/
theorem gp4ps_residuals_amended (E : RE3Q3) (p x X : Fin 4 → Vec3) (s : Fin 3 → ℚ)
    (hdet : det4 (blockTL (buildA p x X)) ≠ 0)
    (hroot : (elimAR (buildA p x X)).mulVec (vecR (E.cayley_param s)) = 0) :
    (s ∈ E.re3q3 (E.rotation_to_3q3 (elimAR (buildA p x X))) →
      poseOf E (buildA p x X) s ∈ gp4psCore E p x X) ∧
    (∀ i : Fin 4, residEven (poseOf E (buildA p x X) s) (p i) (x i) (X i) = 0) ∧
    (∀ i : Fin 4, i.val ≤ 2 →
      residOdd (poseOf E (buildA p x X) s) (p i) (x i) (X i) = 0) := by
  have hR : (poseOf E (buildA p x X) s).R = E.cayley_param s := rfl
  have htv : tvec (poseOf E (buildA p x X) s)
      = -(elimB (buildA p x X)).mulVec
          ((blockTR (buildA p x X)).mulVec (vecR (E.cayley_param s))) := by
    funext k
    fin_cases k <;> rfl
  have htop : (blockTL (buildA p x X)).mulVec (tvec (poseOf E (buildA p x X) s))
      + (blockTR (buildA p x X)).mulVec (vecR (poseOf E (buildA p x X) s).R) = 0 := by
    rw [hR, htv, Matrix.mulVec_neg, Matrix.mulVec_mulVec, elimB, mul_inv4_self _ hdet,
      Matrix.one_mulVec, neg_add_cancel]
  have hbot : (blockBL (buildA p x X)).mulVec (tvec (poseOf E (buildA p x X) s))
      + (blockBR (buildA p x X)).mulVec (vecR (poseOf E (buildA p x X) s).R) = 0 := by
    rw [elimAR, Matrix.sub_mulVec] at hroot
    have hS := sub_eq_zero.mp hroot
    rw [hR, htv, Matrix.mulVec_neg, Matrix.mulVec_mulVec, Matrix.mulVec_mulVec, hS,
      neg_add_cancel]
  have hv4 : ![-residEven (poseOf E (buildA p x X) s) (p 0) (x 0) (X 0),
      -residOdd (poseOf E (buildA p x X) s) (p 0) (x 0) (X 0),
      -residEven (poseOf E (buildA p x X) s) (p 1) (x 1) (X 1),
      -residOdd (poseOf E (buildA p x X) s) (p 1) (x 1) (X 1)] = 0 := by
    rw [← resid_top]
    exact htop
  have hv3 : ![-residEven (poseOf E (buildA p x X) s) (p 2) (x 2) (X 2),
      -residOdd (poseOf E (buildA p x X) s) (p 2) (x 2) (X 2),
      -residEven (poseOf E (buildA p x X) s) (p 3) (x 3) (X 3)] = 0 := by
    rw [← resid_bot]
    exact hbot
  refine ⟨fun hs => ?_, fun i => ?_, fun i hi => ?_⟩
  · simp only [gp4psCore]
    exact List.mem_map_of_mem _ hs
  · fin_cases i
    · have h0 := congrFun hv4 0
      simpa using h0
    · have h0 := congrFun hv4 2
      simpa using h0
    · have h0 := congrFun hv3 0
      simpa using h0
    · have h0 := congrFun hv3 2
      simpa using h0
  · fin_cases i
    · have h0 := congrFun hv4 1
      simpa using h0
    · have h0 := congrFun hv4 3
      simpa using h0
    · have h0 := congrFun hv3 1
      simpa using h0
    · exact absurd hi (by norm_num)

/-- Witness for the amended C5 at the concrete instance. -/
theorem gp4ps_residuals_amended_witness :
    det4 (blockTL (buildA pc xc Xc)) ≠ 0 ∧
    (elimAR (buildA pc xc Xc)).mulVec (vecR (Ezero.cayley_param ![0, 0, 0])) = 0 ∧
    ((![0, 0, 0] ∈ Ezero.re3q3 (Ezero.rotation_to_3q3 (elimAR (buildA pc xc Xc))) →
        poseOf Ezero (buildA pc xc Xc) ![0, 0, 0] ∈ gp4psCore Ezero pc xc Xc) ∧
      (∀ i : Fin 4,
        residEven (poseOf Ezero (buildA pc xc Xc) ![0, 0, 0]) (pc i) (xc i) (Xc i) = 0) ∧
      (∀ i : Fin 4, i.val ≤ 2 →
        residOdd (poseOf Ezero (buildA pc xc Xc) ![0, 0, 0]) (pc i) (xc i) (Xc i) = 0)) :=
  ⟨detc_ne, rootc, gp4ps_residuals_amended Ezero pc xc Xc ![0, 0, 0] detc_ne rootc⟩

/-- Counterexample to C5 as stated: on a nondegenerate instance whose root
is exact (and with the exact Cayley parameterization), the returned pose
leaves the odd residual component of correspondence 3 nonzero (`-1`), so
not all eight projected residual components vanish. -/
theorem gp4ps_residual_cex :
    det4 (blockTL (buildA pc xc Xc)) ≠ 0 ∧
    (elimAR (buildA pc xc Xc)).mulVec (vecR (Ezero.cayley_param ![0, 0, 0])) = 0 ∧
    gp4ps Ezero pcl xcl Xcl [] = some (1, [poseOf Ezero (buildA pc xc Xc) ![0, 0, 0]]) ∧
    ¬ (∀ pose ∈ [poseOf Ezero (buildA pc xc Xc) ![0, 0, 0]], ∀ i : Fin 4,
        residEven pose (pc i) (xc i) (Xc i) = 0 ∧
        residOdd pose (pc i) (xc i) (Xc i) = 0) := by
  refine ⟨detc_ne, rootc, gp4ps_Ezero_eval, fun hall => ?_⟩
  have h3 := (hall (poseOf Ezero (buildA pc xc Xc) ![0, 0, 0]) (by simp) 3).2
  rw [residOddc_eval] at h3
  norm_num at h3

/-- The permutation matrix exchanging the row pairs `(0,1) ↔ (2,3)`:
left-multiplying by it permutes the four rows of the eliminated block as
swapping correspondences 0 and 1 does. -/
def P01 : Matrix (Fin 4) (Fin 4) ℚ :=
  !![0, 0, 1, 0; 0, 0, 0, 1; 1, 0, 0, 0; 0, 1, 0, 0]

/-- The row permutation performed by `P01`. -/
def rho01 : Fin 4 → Fin 4 := ![2, 3, 0, 1]

/-- Left multiplication by `P01` selects rows through `rho01`. -/
theorem P01_mul_row {o : Type} [Fintype o] (N : Matrix (Fin 4) o ℚ) (i : Fin 4) (j : o) :
    (P01 * N) i j = N (rho01 i) j := by
  fin_cases i <;>
    simp [P01, rho01, Matrix.mul_apply, Fin.sum_univ_four]

/-- `P01` is an involution. -/
theorem P01_mul_P01 : P01 * P01 = 1 := by
  funext i j
  fin_cases i <;> fin_cases j <;>
    simp [P01, Matrix.mul_apply, Fin.sum_univ_four, Matrix.one_apply,
      Matrix.vecHead, Matrix.vecTail, Function.comp]

/-- Permuting rows by `P01` (two transpositions) preserves the determinant. -/
theorem det4_P01_mul (M : Matrix (Fin 4) (Fin 4) ℚ) : det4 (P01 * M) = det4 M := by
  simp only [det4, det3, P01_mul_row, rho01]
  norm_num [Matrix.cons_val_zero, Matrix.cons_val_one, Matrix.head_cons]
  ring

set_option maxHeartbeats 2000000 in
/-- Adjugate of a `P01`-row-permuted matrix. -/
theorem adj4_P01_mul (M : Matrix (Fin 4) (Fin 4) ℚ) : adj4 (P01 * M) = adj4 M * P01 := by
  funext i j
  fin_cases i <;> fin_cases j <;>
    simp [adj4, det3, P01, rho01, Matrix.mul_apply, Fin.sum_univ_four,
      Matrix.vecHead, Matrix.vecTail, Function.comp] <;>
    ring

/-- The cofactor inverse of a `P01`-row-permuted matrix. -/
theorem inv4_P01_mul (M : Matrix (Fin 4) (Fin 4) ℚ) : inv4 (P01 * M) = inv4 M * P01 := by
  rw [inv4, det4_P01_mul, adj4_P01_mul, inv4, Matrix.smul_mul]

/-- Cancelling the two `P01` factors in a sandwiched product. -/
theorem mul_P01_cancel {m n : Type} [Fintype m] [Fintype n]
    (M : Matrix m (Fin 4) ℚ) (N : Matrix (Fin 4) n ℚ) :
    (M * P01) * (P01 * N) = M * N := by
  rw [Matrix.mul_assoc, ← Matrix.mul_assoc P01 P01 N, P01_mul_P01, Matrix.one_mul]

/-- Swapping correspondences 0 and 1 permutes the rows of the leading
block by `P01`. -/
theorem blockTL_swap01 (p0 p1 p2 p3 x0 x1 x2 x3 X0 X1 X2 X3 : Vec3) :
    blockTL (buildA ![p1, p0, p2, p3] ![x1, x0, x2, x3] ![X1, X0, X2, X3])
      = P01 * blockTL (buildA ![p0, p1, p2, p3] ![x0, x1, x2, x3] ![X0, X1, X2, X3]) := by
  funext i j
  rw [P01_mul_row]
  fin_cases i <;> rfl

/-- Swapping correspondences 0 and 1 permutes the rows of `A[0:4, 4:13]`
by `P01`. -/
theorem blockTR_swap01 (p0 p1 p2 p3 x0 x1 x2 x3 X0 X1 X2 X3 : Vec3) :
    blockTR (buildA ![p1, p0, p2, p3] ![x1, x0, x2, x3] ![X1, X0, X2, X3])
      = P01 * blockTR (buildA ![p0, p1, p2, p3] ![x0, x1, x2, x3] ![X0, X1, X2, X3]) := by
  funext i j
  rw [P01_mul_row]
  fin_cases i <;> rfl

/-- Swapping correspondences 0 and 1 leaves rows `4..6` of `A` unchanged. -/
theorem blockBL_swap01 (p0 p1 p2 p3 x0 x1 x2 x3 X0 X1 X2 X3 : Vec3) :
    blockBL (buildA ![p1, p0, p2, p3] ![x1, x0, x2, x3] ![X1, X0, X2, X3])
      = blockBL (buildA ![p0, p1, p2, p3] ![x0, x1, x2, x3] ![X0, X1, X2, X3]) := by
  rw [blockBL_eval, blockBL_eval]
  simp [Matrix.cons_val_two, Matrix.cons_val_three, Matrix.vecHead, Matrix.vecTail,
    Function.comp]

/-- Swapping correspondences 0 and 1 leaves `A[4:7, 4:13]` unchanged. -/
theorem blockBR_swap01 (p0 p1 p2 p3 x0 x1 x2 x3 X0 X1 X2 X3 : Vec3) :
    blockBR (buildA ![p1, p0, p2, p3] ![x1, x0, x2, x3] ![X1, X0, X2, X3])
      = blockBR (buildA ![p0, p1, p2, p3] ![x0, x1, x2, x3] ![X0, X1, X2, X3]) := by
  rw [blockBR_eval, blockBR_eval]
  simp [Matrix.cons_val_two, Matrix.cons_val_three, Matrix.vecHead, Matrix.vecTail,
    Function.comp]

/-- Swapping correspondences 0 and 1 changes neither the reduced system nor
the reconstructed poses: the appended pose list is literally the same. -/
theorem gp4psCore_swap01 (E : RE3Q3) (p0 p1 p2 p3 x0 x1 x2 x3 X0 X1 X2 X3 : Vec3) :
    gp4psCore E ![p1, p0, p2, p3] ![x1, x0, x2, x3] ![X1, X0, X2, X3]
      = gp4psCore E ![p0, p1, p2, p3] ![x0, x1, x2, x3] ![X0, X1, X2, X3] := by
  have hTL := blockTL_swap01 p0 p1 p2 p3 x0 x1 x2 x3 X0 X1 X2 X3
  have hTR := blockTR_swap01 p0 p1 p2 p3 x0 x1 x2 x3 X0 X1 X2 X3
  have hBL := blockBL_swap01 p0 p1 p2 p3 x0 x1 x2 x3 X0 X1 X2 X3
  have hBR := blockBR_swap01 p0 p1 p2 p3 x0 x1 x2 x3 X0 X1 X2 X3
  have hB : elimB (buildA ![p1, p0, p2, p3] ![x1, x0, x2, x3] ![X1, X0, X2, X3])
      = elimB (buildA ![p0, p1, p2, p3] ![x0, x1, x2, x3] ![X0, X1, X2, X3]) * P01 := by
    rw [elimB, hTL, inv4_P01_mul, elimB]
  have hAR : elimAR (buildA ![p1, p0, p2, p3] ![x1, x0, x2, x3] ![X1, X0, X2, X3])
      = elimAR (buildA ![p0, p1, p2, p3] ![x0, x1, x2, x3] ![X0, X1, X2, X3]) := by
    rw [elimAR, elimAR, hBR, hBL, hB, hTR, ← Matrix.mul_assoc _ _ P01, mul_P01_cancel]
  have hpose : poseOf E (buildA ![p1, p0, p2, p3] ![x1, x0, x2, x3] ![X1, X0, X2, X3])
      = poseOf E (buildA ![p0, p1, p2, p3] ![x0, x1, x2, x3] ![X0, X1, X2, X3]) := by
    funext s
    have hts : -(elimB (buildA ![p1, p0, p2, p3] ![x1, x0, x2, x3] ![X1, X0, X2, X3])).mulVec
          ((blockTR (buildA ![p1, p0, p2, p3] ![x1, x0, x2, x3] ![X1, X0, X2, X3])).mulVec
            (vecR (E.cayley_param s)))
        = -(elimB (buildA ![p0, p1, p2, p3] ![x0, x1, x2, x3] ![X0, X1, X2, X3])).mulVec
          ((blockTR (buildA ![p0, p1, p2, p3] ![x0, x1, x2, x3] ![X0, X1, X2, X3])).mulVec
            (vecR (E.cayley_param s))) := by
      rw [hB, hTR, Matrix.mulVec_mulVec, mul_P01_cancel, ← Matrix.mulVec_mulVec]
    simp only [poseOf]
    rw [hts]
  rw [gp4psCore, gp4psCore, hAR, hpose]

/-- Amended C7: swapping correspondences 0 and 1 consistently across the
three inputs leaves the result of `gp4ps` (count and poses) literally
unchanged, for every oracle and every input; general permutations do not
enjoy this (see the counterexample), because only rows `4..6` of the
permuted matrix enter the reduced system. -/
theorem gp4ps_swap01_invariant (E : RE3Q3) (p0 p1 p2 p3 x0 x1 x2 x3 X0 X1 X2 X3 : Vec3)
    (out : List CameraPose) :
    gp4ps E [p1, p0, p2, p3] [x1, x0, x2, x3] [X1, X0, X2, X3] out
      = gp4ps E [p0, p1, p2, p3] [x0, x1, x2, x3] [X0, X1, X2, X3] out := by
  rw [gp4ps_eq_some E [p1, p0, p2, p3] [x1, x0, x2, x3] [X1, X0, X2, X3] out
      ![p1, p0, p2, p3] ![x1, x0, x2, x3] ![X1, X0, X2, X3] rfl rfl rfl,
    gp4ps_eq_some E [p0, p1, p2, p3] [x0, x1, x2, x3] [X0, X1, X2, X3] out
      ![p0, p1, p2, p3] ![x0, x1, x2, x3] ![X0, X1, X2, X3] rfl rfl rfl,
    gp4psCore_swap01]

/-- Counterexample to C7 as stated: the swapped input lists are the
consistent relabelling of the concrete input lists by the transposition
(2 3) — recorded element by element; both orderings are nondegenerate; with
the root-checking oracle (which only ever reports exact roots of the
reduced system it is given), the original ordering returns one pose while
the swapped ordering returns none, so the recovered pose sets differ.  The
underlying reason is recorded by the two `mulVec` conjuncts: the exact root
of the original reduced system is not a root of the swapped one. -/
theorem gp4ps_permutation_cex :
    det4 (blockTL (buildA pc xc Xc)) ≠ 0 ∧
    det4 (blockTL (buildA pcS xcS XcS)) ≠ 0 ∧
    (pclS[0]? = pcl[0]? ∧ pclS[1]? = pcl[1]? ∧ pclS[2]? = pcl[3]? ∧ pclS[3]? = pcl[2]?) ∧
    (xclS[0]? = xcl[0]? ∧ xclS[1]? = xcl[1]? ∧ xclS[2]? = xcl[3]? ∧ xclS[3]? = xcl[2]?) ∧
    (XclS[0]? = Xcl[0]? ∧ XclS[1]? = Xcl[1]? ∧ XclS[2]? = Xcl[3]? ∧ XclS[3]? = Xcl[2]?) ∧
    (elimAR (buildA pc xc Xc)).mulVec (vecR (Efilter.cayley_param ![0, 0, 0])) = 0 ∧
    (elimAR (buildA pcS xcS XcS)).mulVec (vecR (Efilter.cayley_param ![0, 0, 0])) ≠ 0 ∧
    gp4ps Efilter pcl xcl Xcl [] = some (1, [poseOf Efilter (buildA pc xc Xc) ![0, 0, 0]]) ∧
    gp4ps Efilter pclS xclS XclS [] = some (0, []) ∧
    ¬ (∀ pose : CameraPose,
        pose ∈ [poseOf Efilter (buildA pc xc Xc) ![0, 0, 0]] ↔
        pose ∈ ([] : List CameraPose)) := by
  refine ⟨detc_ne, detcS_ne, ⟨rfl, rfl, rfl, rfl⟩, ⟨rfl, rfl, rfl, rfl⟩,
    ⟨rfl, rfl, rfl, rfl⟩, rootc, rootcS_ne,
    gp4ps_Efilter_eval, gp4ps_Efilter_evalS, fun hiff => ?_⟩
  have hmem := (hiff (poseOf Efilter (buildA pc xc Xc) ![0, 0, 0])).mp (by simp)
  simp at hmem

/-- C9: the result of `gp4ps` is independent of the second components
`x[3](1)` and `p[3](1)` of the fourth correspondence: for two inputs that
agree everywhere except possibly in those two entries, the outputs are
identical.  They enter only row 7 of `A`, which neither the Schur update
(rows 4..6) nor the back-substitution (rows 0..3) ever reads. -/
theorem gp4ps_row7_independent (E : RE3Q3)
    (p0 p1 p2 p3 q3 x0 x1 x2 x3 y3 X0 X1 X2 X3 : Vec3) (out : List CameraPose)
    (hp0 : q3 0 = p3 0) (hp2 : q3 2 = p3 2)
    (hx0 : y3 0 = x3 0) (hx2 : y3 2 = x3 2) :
    gp4ps E [p0, p1, p2, q3] [x0, x1, x2, y3] [X0, X1, X2, X3] out
      = gp4ps E [p0, p1, p2, p3] [x0, x1, x2, x3] [X0, X1, X2, X3] out := by
  rw [gp4ps_eq_some E [p0, p1, p2, q3] [x0, x1, x2, y3] [X0, X1, X2, X3] out
      ![p0, p1, p2, q3] ![x0, x1, x2, y3] ![X0, X1, X2, X3] rfl rfl rfl,
    gp4ps_eq_some E [p0, p1, p2, p3] [x0, x1, x2, x3] [X0, X1, X2, X3] out
      ![p0, p1, p2, p3] ![x0, x1, x2, x3] ![X0, X1, X2, X3] rfl rfl rfl]
  suffices h : gp4psCore E ![p0, p1, p2, q3] ![x0, x1, x2, y3] ![X0, X1, X2, X3]
      = gp4psCore E ![p0, p1, p2, p3] ![x0, x1, x2, x3] ![X0, X1, X2, X3] by
    rw [h]
  have hTL : blockTL (buildA ![p0, p1, p2, q3] ![x0, x1, x2, y3] ![X0, X1, X2, X3])
      = blockTL (buildA ![p0, p1, p2, p3] ![x0, x1, x2, x3] ![X0, X1, X2, X3]) := by
    rw [blockTL_eval, blockTL_eval]
    simp [Matrix.vecHead, Matrix.vecTail, Function.comp]
  have hTR : blockTR (buildA ![p0, p1, p2, q3] ![x0, x1, x2, y3] ![X0, X1, X2, X3])
      = blockTR (buildA ![p0, p1, p2, p3] ![x0, x1, x2, x3] ![X0, X1, X2, X3]) := by
    rw [blockTR_eval, blockTR_eval]
    simp [Matrix.vecHead, Matrix.vecTail, Function.comp]
  have hBL : blockBL (buildA ![p0, p1, p2, q3] ![x0, x1, x2, y3] ![X0, X1, X2, X3])
      = blockBL (buildA ![p0, p1, p2, p3] ![x0, x1, x2, x3] ![X0, X1, X2, X3]) := by
    rw [blockBL_eval, blockBL_eval]
    simp [Matrix.vecHead, Matrix.vecTail, Function.comp, hp0, hp2, hx0, hx2]
  have hBR : blockBR (buildA ![p0, p1, p2, q3] ![x0, x1, x2, y3] ![X0, X1, X2, X3])
      = blockBR (buildA ![p0, p1, p2, p3] ![x0, x1, x2, x3] ![X0, X1, X2, X3]) := by
    rw [blockBR_eval, blockBR_eval]
    simp [Matrix.vecHead, Matrix.vecTail, Function.comp, hx0, hx2]
  have hB : elimB (buildA ![p0, p1, p2, q3] ![x0, x1, x2, y3] ![X0, X1, X2, X3])
      = elimB (buildA ![p0, p1, p2, p3] ![x0, x1, x2, x3] ![X0, X1, X2, X3]) := by
    rw [elimB, elimB, hTL]
  have hAR : elimAR (buildA ![p0, p1, p2, q3] ![x0, x1, x2, y3] ![X0, X1, X2, X3])
      = elimAR (buildA ![p0, p1, p2, p3] ![x0, x1, x2, x3] ![X0, X1, X2, X3]) := by
    rw [elimAR, elimAR, hBR, hBL, hB, hTR]
  have hpose : poseOf E (buildA ![p0, p1, p2, q3] ![x0, x1, x2, y3] ![X0, X1, X2, X3])
      = poseOf E (buildA ![p0, p1, p2, p3] ![x0, x1, x2, x3] ![X0, X1, X2, X3]) := by
    funext s
    simp only [poseOf]
    rw [hB, hTR]
  rw [gp4psCore, gp4psCore, hAR, hpose]

/-- Witness for C9: changing `p[3](1)` from `0` to `9` and `x[3](1)` from
`0` to `7` leaves the call unchanged. -/
theorem gp4ps_row7_independent_witness :
    (![0, 9, 0] : Vec3) 0 = (![0, 0, 0] : Vec3) 0 ∧
    (![0, 9, 0] : Vec3) 2 = (![0, 0, 0] : Vec3) 2 ∧
    (![0, 7, 1] : Vec3) 0 = (![0, 0, 1] : Vec3) 0 ∧
    (![0, 7, 1] : Vec3) 2 = (![0, 0, 1] : Vec3) 2 ∧
    gp4ps Ezero [![0, 0, 0], ![0, -1, 0], ![1, 0, 0], ![0, 9, 0]]
        [![0, 0, 1], ![1, 0, 1], ![0, 1, 1], ![0, 7, 1]]
        [![0, 0, 5], ![1, -1, 1], ![1, 2, 2], ![0, 1, 7]] []
      = gp4ps Ezero [![0, 0, 0], ![0, -1, 0], ![1, 0, 0], ![0, 0, 0]]
        [![0, 0, 1], ![1, 0, 1], ![0, 1, 1], ![0, 0, 1]]
        [![0, 0, 5], ![1, -1, 1], ![1, 2, 2], ![0, 1, 7]] [] :=
  ⟨rfl, rfl, rfl, rfl,
    gp4ps_row7_independent Ezero ![0, 0, 0] ![0, -1, 0] ![1, 0, 0] ![0, 0, 0] ![0, 9, 0]
      ![0, 0, 1] ![1, 0, 1] ![0, 1, 1] ![0, 0, 1] ![0, 7, 1]
      ![0, 0, 5] ![1, -1, 1] ![1, 2, 2] ![0, 1, 7] [] rfl rfl rfl rfl⟩

/-- C10: the call only reads elements `0..3` of each input sequence — its
result always equals the call on the inputs truncated to their first four
elements — and inputs with at least four elements are never rejected. -/
theorem gp4ps_truncates_extra (E : RE3Q3) (p x X : List Vec3) (out : List CameraPose) :
    gp4ps E p x X out = gp4ps E (p.take 4) (x.take 4) (X.take 4) out ∧
    (4 ≤ p.length → 4 ≤ x.length → 4 ≤ X.length → (gp4ps E p x X out).isSome = true) := by
  constructor
  · rw [gp4ps, gp4ps, read4_take, read4_take, read4_take]
  · intro h1 h2 h3
    rw [gp4ps, read4_isSome p h1, read4_isSome x h2, read4_isSome X h3]
    rfl

/-- Witness for C10 at five-element inputs. -/
theorem gp4ps_truncates_extra_witness :
    4 ≤ pcl5.length ∧ 4 ≤ xcl5.length ∧ 4 ≤ Xcl5.length ∧
    gp4ps Ezero pcl5 xcl5 Xcl5 [] = gp4ps Ezero (pcl5.take 4) (xcl5.take 4) (Xcl5.take 4) [] ∧
    (gp4ps Ezero pcl5 xcl5 Xcl5 []).isSome = true :=
  ⟨by decide, by decide, by decide,
    (gp4ps_truncates_extra Ezero pcl5 xcl5 Xcl5 []).1,
    (gp4ps_truncates_extra Ezero pcl5 xcl5 Xcl5 []).2 (by decide) (by decide) (by decide)⟩

/-- Amended C8: `gp4ps` performs no shape validation; the only failure is
the modelled out-of-range access, which occurs exactly when some input
sequence has fewer than four elements (in the C++ source this is an
unchecked out-of-bounds `operator[]`, not a signalled error).  Sequences
longer than four are processed, not rejected (see the counterexample). -/
theorem gp4ps_short_input_none (E : RE3Q3) (p x X : List Vec3) (out : List CameraPose)
    (h : p.length < 4 ∨ x.length < 4 ∨ X.length < 4) :
    gp4ps E p x X out = none := by
  rcases h with h | h | h
  · rw [gp4ps, read4_eq_none p h]
    rfl
  · rw [gp4ps, read4_eq_none x h]
    cases read4 p <;> rfl
  · rw [gp4ps, read4_eq_none X h]
    cases read4 p <;> cases read4 x <;> rfl

/-- Witness for the amended C8 at empty inputs. -/
theorem gp4ps_short_input_none_witness :
    (([] : List Vec3).length < 4 ∨ (xcl).length < 4 ∨ (Xcl).length < 4) ∧
    gp4ps Ezero [] xcl Xcl [] = none :=
  ⟨Or.inl (by decide), gp4ps_short_input_none Ezero [] xcl Xcl [] (Or.inl (by decide))⟩

/-- Counterexample to C8 as stated: five-element inputs (a shape other than
four correspondences) are not rejected before computation — the call
succeeds, truncating silently to the first four elements. -/
theorem gp4ps_shape_cex :
    pcl5.length ≠ 4 ∧ xcl5.length ≠ 4 ∧ Xcl5.length ≠ 4 ∧
    gp4ps Ezero pcl5 xcl5 Xcl5 [] =
      some (1, [poseOf Ezero (buildA pc xc Xc) ![0, 0, 0]]) :=
  ⟨by decide, by decide, by decide, rfl⟩
